import Mathlib

/-!
Verification of the resilient paginated-extraction worker
(`mustamir_cme_extractor.py`) against its natural-language specification.

The Python source is shallowly embedded: pure helpers become Lean functions
on `String`/`List Char`/`Int`; the stateful navigation routines become
explicit functions over an abstract environment that records, tick by tick,
what the remote UI would answer to each observation; fallible driver
primitives are modelled with `Except`.  All definitions are executable.
-/

set_option autoImplicit false

namespace Mustamir

/-! ## Shard planning

Source (`main`, lines 386-387 and 449-453):

  eff_start = max(1, start_page) + (shard_index if shard_count > 1 else 0)
  stride = shard_count if shard_count > 1 else 1

and after each processed page the worker advances `stride` pages via the
"next" button, so shard `i` visits `eff_start i`, `eff_start i + stride`,
`eff_start i + 2*stride`, ….  `start_page` is a Python `int` (may be
negative on the command line), hence `Int` here; shard parameters are used
as natural numbers once validated. -/

/-- Embeds `shard_count if shard_count > 1 else 1` (line 449). -/
def shardStride (shardCount : Nat) : Nat :=
  if shardCount > 1 then shardCount else 1

/-- Embeds `max(1, start_page) + (shard_index if shard_count > 1 else 0)`
(line 387). -/
def effStart (startPage : Int) (shardCount shardIndex : Nat) : Int :=
  max 1 startPage + (if shardCount > 1 then (shardIndex : Int) else 0)

/-- The page visited by shard `shardIndex` at step `k`: the effective start
page plus `k` stride advances (lines 387 and 449-453). -/
def visitedPage (startPage : Int) (shardCount shardIndex k : Nat) : Int :=
  effStart startPage shardCount shardIndex + (shardStride shardCount : Int) * k

theorem visitedPage_gt_one (sp : Int) (N i k : Nat) (hN : 1 < N) :
    visitedPage sp N i k = max 1 sp + i + N * k := by
  simp only [visitedPage, effStart, shardStride, if_pos hN]

theorem visitedPage_one (sp : Int) (k : Nat) :
    visitedPage sp 1 0 k = max 1 sp + k := by
  simp [visitedPage, effStart, shardStride]

/-- C1: with all shards sharing `startPage ≥ 1` and `shardCount ≥ 1`, the
shard page sequences are pairwise disjoint (each page has a unique owner
shard and step), their union covers the arithmetic sequence
`startPage, startPage+1, …` with no gaps, and no shard ever visits a page
below `startPage`. -/
theorem shard_partition (sp : Int) (N : Nat) (hsp : 1 ≤ sp) (hN : 1 ≤ N) :
    (∀ i j k k', i < N → j < N →
        visitedPage sp N i k = visitedPage sp N j k' → i = j ∧ k = k')
    ∧ (∀ m : Nat, ∃ i k, i < N ∧ visitedPage sp N i k = sp + m)
    ∧ (∀ i k, i < N → sp ≤ visitedPage sp N i k) := by
  have hmax : max 1 sp = sp := max_eq_right hsp
  rcases Nat.lt_or_ge 1 N with hN1 | hN1
  · -- sharded case: stride = N > 1
    refine ⟨?_, ?_, ?_⟩
    · intro i j k k' hi hj h
      rw [visitedPage_gt_one sp N i k hN1, visitedPage_gt_one sp N j k' hN1] at h
      have h2 : ((i + N * k : Nat) : Int) = ((j + N * k' : Nat) : Int) := by
        push_cast; omega
      have h3 : i + N * k = j + N * k' := Nat.cast_injective h2
      have hmod : i = j := by
        have := congrArg (· % N) h3
        simpa [Nat.add_mul_mod_self_left, Nat.mod_eq_of_lt hi,
          Nat.mod_eq_of_lt hj] using this
      refine ⟨hmod, ?_⟩
      subst hmod
      have h4 : N * k = N * k' := by omega
      exact Nat.eq_of_mul_eq_mul_left (by omega) h4
    · intro m
      refine ⟨m % N, m / N, Nat.mod_lt _ (by omega), ?_⟩
      rw [visitedPage_gt_one sp N _ _ hN1, hmax]
      have h0 : N * (m / N) + m % N = m := Nat.div_add_mod m N
      have h5 : (N : Int) * ((m / N : Nat) : Int) + ((m % N : Nat) : Int) = (m : Int) := by
        exact_mod_cast congrArg (fun n : Nat => (n : Int)) h0
      omega
    · intro i k _
      rw [visitedPage_gt_one sp N i k hN1, hmax]
      have h6 : 0 ≤ (N : Int) * (k : Int) :=
        mul_nonneg (Int.natCast_nonneg N) (Int.natCast_nonneg k)
      omega
  · -- unsharded: N = 1
    have hN' : N = 1 := by omega
    subst hN'
    refine ⟨?_, ?_, ?_⟩
    · intro i j k k' hi hj h
      interval_cases i
      interval_cases j
      rw [visitedPage_one, visitedPage_one] at h
      constructor
      · rfl
      · omega
    · intro m
      exact ⟨0, m, by omega, by rw [visitedPage_one, hmax]⟩
    · intro i k hi
      interval_cases i
      rw [visitedPage_one, hmax]
      omega

/-- Witness for C1: with `startPage = 1` and three shards, page `1 + 7 = 8`
is covered by some shard. -/
theorem shard_partition_witness :
    ∃ i k, i < 3 ∧ visitedPage 1 3 i k = 1 + (7 : Nat) :=
  (shard_partition 1 3 (by decide) (by decide)).2.1 7

/-- C5: for every `shardCount ≥ 1` and valid shard indices, the planned
effective start page is `max 1 startPage + shardIndex` when `shardCount > 1`
and `max 1 startPage` when `shardCount = 1`, and for fixed `startPage` and
`shardCount` it strictly increases with the shard index. -/
theorem effStart_formula_strictMono (sp : Int) (N i j : Nat) (hN : 1 ≤ N) :
    (effStart sp N i = if N > 1 then max 1 sp + (i : Int) else max 1 sp)
    ∧ (i < j → j < N → effStart sp N i < effStart sp N j) := by
  constructor
  · by_cases h : N > 1
    · simp [effStart, h]
    · simp [effStart, h]
  · intro hij hjN
    have h : N > 1 := by omega
    simp only [effStart, if_pos h]
    have : (i : Int) < (j : Int) := by exact_mod_cast hij
    omega

/-- Witness for C5: concrete instance at `startPage = 5`, three shards,
indices `0 < 2`. -/
theorem effStart_formula_strictMono_witness :
    (effStart 5 3 0 = if 3 > 1 then max 1 5 + (0 : Int) else max 1 5)
    ∧ effStart 5 3 0 < effStart 5 3 2 :=
  ⟨(effStart_formula_strictMono 5 3 0 2 (by decide)).1,
   (effStart_formula_strictMono 5 3 0 2 (by decide)).2 (by decide) (by decide)⟩

/-! ## Fast-forward (`fast_forward_to_page`, lines 176-188)

Source:

  cur = active_page_number(container); steps = 0
  while cur and cur < target_page and steps < hard_cap_steps:
      if not click_next(container): break
      cur = active_page_number(container) or (cur + 1)
      steps += 1
  if cur != target_page: log warn   # non-fatal

The claim's scenario is "unrestricted forward advancement": the active-page
indicator is always readable and truthful, and `click_next` succeeds exactly
while more pages remain.  `reachable` is the number of reachable pages, so
`click_next` succeeds iff `cur < reachable`.  The loop is embedded with the
remaining step budget (`hard_cap_steps - steps`) as the recursion measure;
the pair returned is (final page, steps actually taken). -/

/-- The hard step cap of `fast_forward_to_page` (default argument, line 176). -/
def ffCap : Nat := 4000

/-- One-for-one embedding of the `while` loop of `fast_forward_to_page`
under unrestricted forward advancement.  `rem` is the remaining step budget
`hard_cap_steps - steps`; `cur ≠ 0` embeds the Python truthiness test
`while cur and …`. -/
def ffLoop (reachable target : Nat) : Nat → Nat → Nat × Nat
  | cur, 0 => (cur, 0)
  | cur, rem + 1 =>
    if cur ≠ 0 ∧ cur < target then
      if cur < reachable then
        let p := ffLoop reachable target (cur + 1) rem
        (p.1, p.2 + 1)
      else (cur, 0)
    else (cur, 0)

/-- `fast_forward_to_page` started from page 1 with a readable indicator:
returns the page it lands on and the number of `click_next` steps taken. -/
def fast_forward_to_page (reachable target : Nat) : Nat × Nat :=
  ffLoop reachable target 1 ffCap

theorem ffLoop_reachable (reachable target : Nat) :
    ∀ rem cur, 1 ≤ cur → cur ≤ target → target ≤ reachable →
      ffLoop reachable target cur rem =
        (min target (cur + rem), min target (cur + rem) - cur) := by
  intro rem
  induction rem with
  | zero =>
    intro cur h1 h2 _
    simp [ffLoop, Nat.min_eq_right h2]
  | succ n ih =>
    intro cur h1 h2 h3
    rcases Nat.lt_or_ge cur target with hlt | hge
    · rw [ffLoop, if_pos ⟨by omega, hlt⟩, if_pos (by omega)]
      rw [ih (cur + 1) (by omega) (by omega) h3]
      simp only [Prod.mk.injEq]
      refine ⟨by omega, by omega⟩
    · have hcur : cur = target := by omega
      rw [ffLoop, if_neg (by omega)]
      subst hcur
      simp

theorem ffLoop_steps_le (reachable target : Nat) :
    ∀ rem cur, (ffLoop reachable target cur rem).2 ≤ rem := by
  intro rem
  induction rem with
  | zero => intro cur; simp [ffLoop]
  | succ n ih =>
    intro cur
    rw [ffLoop]
    split
    · split
      · simpa using Nat.succ_le_succ (ih (cur + 1))
      · simp
    · simp

/-- Counterexample to C4: page 4002 is reachable (4002 ≤ 5000 reachable
pages) and every forward step succeeds, yet the fast-forward stops on page
4001 — the 4000-step hard cap fires before the target is reached, so the
claim "lands exactly on page target whenever target is at most the number of
reachable pages" fails for targets more than 4000 pages past the start. -/
theorem fast_forward_cap_counterexample :
    (4002 : Nat) ≤ 5000
    ∧ (fast_forward_to_page 5000 4002).1 = 4001
    ∧ (fast_forward_to_page 5000 4002).1 ≠ 4002 := by
  have h := ffLoop_reachable 5000 4002 ffCap 1 (by decide) (by decide) (by decide)
  refine ⟨by decide, ?_, ?_⟩
  · rw [fast_forward_to_page, h]
    decide
  · rw [fast_forward_to_page, h]
    decide

/-- C4 (amended): under unrestricted forward advancement from page 1,
`fast_forward_to_page` lands exactly on `target` whenever `target` is at
most the number of reachable pages *and* at most `ffCap + 1 = 4001` (the
start page plus the hard step cap); in every case it performs at most
`ffCap = 4000` advance steps, so it never loops forever, and a missed
target only produces a warning (the embedded function is total and returns
normally). -/
theorem fast_forward_lands (reachable target : Nat)
    (h1 : 1 ≤ target) (h2 : target ≤ reachable) (h3 : target ≤ ffCap + 1) :
    (fast_forward_to_page reachable target).1 = target
    ∧ (fast_forward_to_page reachable target).2 ≤ ffCap := by
  have h := ffLoop_reachable reachable target ffCap 1 (by decide) h1 h2
  constructor
  · rw [fast_forward_to_page, h]
    show min target (1 + ffCap) = target
    simp only [ffCap] at h3 ⊢
    omega
  · exact ffLoop_steps_le reachable target ffCap 1

/-- Witness for C4 (amended): with 5 reachable pages the fast-forward lands
exactly on page 3. -/
theorem fast_forward_lands_witness :
    (fast_forward_to_page 5 3).1 = 3 ∧ (fast_forward_to_page 5 3).2 ≤ ffCap :=
  fast_forward_lands 5 3 (by decide) (by decide) (by decide)

/-! ## Pagination advance (`click_next` / `wait_tbody_swap`, lines 148-167)

Source:

  def wait_tbody_swap(container, prev_html, timeout_s=10):
      start = time.time()
      while time.time() - start < timeout_s:
          cur = tbody_html(container)
          if cur and cur != prev_html: return True
          time.sleep(0.1)
      return False

  def click_next(container, retries=3):
      for _ in range(retries):
          prev = tbody_html(container)
          btn = container.locator(NEXT_BTN).first
          if btn.count() and btn.is_enabled():
              btn.click()
              wait_rows_ready(container)
              if wait_tbody_swap(container, prev, 10): return True
          time.sleep(0.25)
      return False

The remote UI is modelled as a tick-indexed environment: `tbody t` is the
tbody fingerprint a read at tick `t` observes, `nextOn t` is whether the
"next" button exists and is enabled at tick `t`, and `readyDelay t` is how
many ticks `wait_rows_ready` consumes after a click at tick `t`.  Each
observation advances the clock by one tick.  The bounded 10-second poll of
`wait_tbody_swap` becomes an explicit poll budget `swapFuel`.  Driver
queries are modelled as total observations (in the claim's scenario the
container stays responsive); `tbody_html`'s own exception absorption is
verified separately (C10). -/

structure PagEnv where
  tbody : Nat → String
  nextOn : Nat → Bool
  readyDelay : Nat → Nat

/-- Embedding of `wait_tbody_swap`: poll the fingerprint (`cur`, read at
the current tick) until it is nonempty and differs from `prev`, up to
`fuel` polls.  Returns the outcome and the clock after the wait. -/
def wait_tbody_swap (env : PagEnv) (prev : String) : Nat → Nat → Bool × Nat
  | t, 0 => (false, t)
  | t, fuel + 1 =>
    if env.tbody t ≠ "" ∧ env.tbody t ≠ prev then (true, t + 1)
    else wait_tbody_swap env prev (t + 1) fuel

/-- Embedding of `click_next`: up to `retries` attempts, each recording the
current fingerprint (`prev = env.tbody t`, the read at the attempt's first
tick), clicking "next" when present-and-enabled, running `wait_rows_ready`
(which consumes `readyDelay` ticks), and verifying the fingerprint
swapped. -/
def click_next (env : PagEnv) (swapFuel : Nat) : Nat → Nat → Bool × Nat
  | t, 0 => (false, t)
  | t, r + 1 =>
    if env.nextOn (t + 1) then
      match wait_tbody_swap env (env.tbody t) (t + 2 + env.readyDelay (t + 1)) swapFuel with
      | (true, t3) => (true, t3)
      | (false, t3) => click_next env swapFuel (t3 + 1) r
    else click_next env swapFuel (t + 2) r

theorem wait_tbody_swap_true (env : PagEnv) (prev : String) :
    ∀ fuel t t', wait_tbody_swap env prev t fuel = (true, t') →
      ∃ u, t ≤ u ∧ env.tbody u ≠ "" ∧ env.tbody u ≠ prev := by
  intro fuel
  induction fuel with
  | zero => intro t t' h; simp [wait_tbody_swap] at h
  | succ n ih =>
    intro t t' h
    rw [wait_tbody_swap] at h
    split at h
    · next hc => exact ⟨t, le_refl t, hc.1, hc.2⟩
    · obtain ⟨u, hu, h1, h2⟩ := ih (t + 1) t' h
      exact ⟨u, by omega, h1, h2⟩

theorem wait_tbody_swap_const (env : PagEnv)
    (hc : ∀ a b, env.tbody a = env.tbody b) (t0 : Nat) :
    ∀ fuel t, wait_tbody_swap env (env.tbody t0) t fuel = (false, t + fuel) := by
  intro fuel
  induction fuel with
  | zero => intro t; simp [wait_tbody_swap]
  | succ n ih =>
    intro t
    rw [wait_tbody_swap]
    split
    · next hcon => exact absurd (hc t t0) hcon.2
    · rw [ih (t + 1)]
      have harith : t + 1 + n = t + (n + 1) := by omega
      rw [harith]

theorem click_next_true_implies_change (env : PagEnv) (swapFuel : Nat) :
    ∀ r t t', click_next env swapFuel t r = (true, t') →
      ∃ a b, a ≤ b ∧ env.tbody b ≠ "" ∧ env.tbody b ≠ env.tbody a := by
  intro r
  induction r with
  | zero => intro t t' h; simp [click_next] at h
  | succ n ih =>
    intro t t' h
    rw [click_next] at h
    split at h
    · split at h
      · next t3 hsw =>
        obtain ⟨u, hu, h1, h2⟩ :=
          wait_tbody_swap_true env (env.tbody t) swapFuel _ _ hsw
        exact ⟨t, u, by omega, h1, h2⟩
      · exact ih _ _ h
    · exact ih _ _ h

/-- C2: (a) `click_next` returns true only if some later read observed a
row-content fingerprint that is nonempty and differs from a fingerprint it
recorded earlier; (b) on a container whose fingerprint never changes, the
default budget of 3 click-and-verify attempts is exhausted and `click_next`
returns false (and, the embedding being a total function, it returns rather
than raising). -/
theorem click_next_fingerprint (env : PagEnv) (swapFuel t : Nat) :
    ((click_next env swapFuel t 3).1 = true →
      ∃ a b, a ≤ b ∧ env.tbody b ≠ "" ∧ env.tbody b ≠ env.tbody a)
    ∧ ((∀ a b, env.tbody a = env.tbody b) →
      (click_next env swapFuel t 3).1 = false) := by
  constructor
  · intro h
    have h' : click_next env swapFuel t 3 =
        (true, (click_next env swapFuel t 3).2) := by
      rw [← h]
    exact click_next_true_implies_change env swapFuel 3 t _ h'
  · intro hc
    suffices hgen : ∀ r t', (click_next env swapFuel t' r).1 = false by
      exact hgen 3 t
    intro r
    induction r with
    | zero => intro t'; simp [click_next]
    | succ n ih =>
      intro t'
      rw [click_next]
      split
      · rw [wait_tbody_swap_const env hc t' swapFuel (t' + 2 + env.readyDelay (t' + 1))]
        exact ih _
      · exact ih _

/-- Witness for C2: a constant-fingerprint container makes `click_next`
return false after its 3 attempts. -/
theorem click_next_fingerprint_witness :
    (click_next ⟨fun _ => "row", fun _ => true, fun _ => 0⟩ 2 0 3).1 = false :=
  (click_next_fingerprint ⟨fun _ => "row", fun _ => true, fun _ => 0⟩ 2 0).2
    (fun _ _ => rfl)

/-! ## Whitespace normalization (`clean_spaces`, lines 85-86)

Source:

  def clean_spaces(s: str) -> str:
      return re.sub(r"\s+", " ", s).strip()

`re.sub(r"\s+", " ", s)` replaces every maximal run of whitespace by one
space; `.strip()` then removes leading and trailing whitespace.  `pyWs` is
the ASCII core of Python's `\s` class (space, tab, newline, carriage
return, vertical tab, form feed). -/

/-- ASCII core of Python's whitespace class `\s`. -/
def pyWs (c : Char) : Bool :=
  c = ' ' || c = '\t' || c = '\n' || c = '\r' || c = '\x0b' || c = '\x0c'

/-- `re.sub(r"\s+", " ", ·)` on a character list: each maximal whitespace
run becomes a single `' '`.  `prevWs` records whether we are inside a run
whose replacement space was already emitted. -/
def collapseWs (prevWs : Bool) : List Char → List Char
  | [] => []
  | c :: cs =>
    if pyWs c then
      if prevWs then collapseWs true cs
      else ' ' :: collapseWs true cs
    else c :: collapseWs false cs

/-- Remove the trailing run of characters satisfying `p`. -/
def dropTrailing (p : Char → Bool) : List Char → List Char
  | [] => []
  | c :: cs =>
    if (dropTrailing p cs).isEmpty && p c then [] else c :: dropTrailing p cs

/-- Python `str.strip`-style strip of characters satisfying `p` from both
ends. -/
def pyStrip (p : Char → Bool) (l : List Char) : List Char :=
  dropTrailing p (l.dropWhile p)

/-- Embedding of `clean_spaces`. -/
def clean_spaces (s : String) : String :=
  ⟨pyStrip pyWs (collapseWs false s.data)⟩

/-- No two adjacent whitespace characters. -/
def noAdjWs : List Char → Bool
  | [] => true
  | c :: cs => (cs.head?.all fun d => !(pyWs c && pyWs d)) && noAdjWs cs

theorem mem_collapseWs_ws :
    ∀ (l : List Char) (b : Bool) (c : Char),
      c ∈ collapseWs b l → pyWs c = true → c = ' ' := by
  intro l
  induction l with
  | nil => intro b c h; simp [collapseWs] at h
  | cons a t ih =>
    intro b c h hws
    rw [collapseWs] at h
    by_cases ha : pyWs a
    · rw [if_pos ha] at h
      cases b with
      | true => exact ih true c (by simpa using h) hws
      | false =>
        rw [if_neg (show ¬(false = true) by decide)] at h
        rcases List.mem_cons.mp h with h1 | h1
        · exact h1
        · exact ih true c h1 hws
    · rw [if_neg ha] at h
      rcases List.mem_cons.mp h with h1 | h1
      · subst h1; exact absurd hws (by simpa using ha)
      · exact ih false c h1 hws

theorem head_collapseWs_true :
    ∀ l : List Char, ((collapseWs true l).head?.all fun c => !pyWs c) = true := by
  intro l
  induction l with
  | nil => simp [collapseWs]
  | cons a t ih =>
    rw [collapseWs]
    by_cases ha : pyWs a
    · rw [if_pos ha]
      exact ih
    · rw [if_neg ha]
      simpa using ha

theorem noAdjWs_collapseWs :
    ∀ (l : List Char) (b : Bool), noAdjWs (collapseWs b l) = true := by
  intro l
  induction l with
  | nil => intro b; simp [collapseWs, noAdjWs]
  | cons a t ih =>
    intro b
    rw [collapseWs]
    by_cases ha : pyWs a
    · rw [if_pos ha]
      cases b with
      | true => exact ih true
      | false =>
        rw [if_neg (show ¬(false = true) by decide)]
        rw [noAdjWs]
        refine Bool.and_eq_true_iff.mpr ⟨?_, ih true⟩
        have hh := head_collapseWs_true t
        rcases hhead : (collapseWs true t).head? with _ | d
        · simp
        · rw [hhead] at hh
          simp only [Option.all_some] at hh ⊢
          simp [hh]
    · rw [if_neg ha]
      rw [noAdjWs]
      refine Bool.and_eq_true_iff.mpr ⟨?_, ih false⟩
      rcases hhead : (collapseWs false t).head? with _ | d
      · simp
      · simp only [Option.all_some]
        simp [ha]

theorem noAdjWs_tail {c : Char} {l : List Char}
    (h : noAdjWs (c :: l) = true) : noAdjWs l = true :=
  (Bool.and_eq_true_iff.mp h).2

theorem noAdjWs_dropWhile (p : Char → Bool) :
    ∀ l : List Char, noAdjWs l = true → noAdjWs (l.dropWhile p) = true := by
  intro l
  induction l with
  | nil => intro h; simpa using h
  | cons a t ih =>
    intro h
    rw [List.dropWhile_cons]
    by_cases ha : p a
    · rw [if_pos ha]
      exact ih (noAdjWs_tail h)
    · rw [if_neg ha]
      exact h

theorem head_dropWhile_not (p : Char → Bool) :
    ∀ l : List Char, ((l.dropWhile p).head?.all fun c => !p c) = true := by
  intro l
  induction l with
  | nil => simp
  | cons a t ih =>
    rw [List.dropWhile_cons]
    by_cases ha : p a
    · rw [if_pos ha]; exact ih
    · rw [if_neg ha]; simpa using ha

theorem dropTrailing_head (p : Char → Bool) :
    ∀ l : List Char,
      dropTrailing p l = [] ∨ (dropTrailing p l).head? = l.head? := by
  intro l
  cases l with
  | nil => exact Or.inl rfl
  | cons a t =>
    rw [dropTrailing]
    by_cases hc : (dropTrailing p t).isEmpty && p a
    · rw [if_pos hc]; exact Or.inl rfl
    · rw [if_neg hc]; exact Or.inr rfl

theorem dropTrailing_last (p : Char → Bool) :
    ∀ l : List Char, ((dropTrailing p l).getLast?.all fun c => !p c) = true := by
  intro l
  induction l with
  | nil => simp [dropTrailing]
  | cons a t ih =>
    rw [dropTrailing]
    by_cases hc : (dropTrailing p t).isEmpty && p a
    · rw [if_pos hc]; simp
    · rw [if_neg hc]
      rcases hdt : dropTrailing p t with _ | ⟨d, r⟩
      · have hpa : p a = false := by
          rw [hdt] at hc
          simpa using hc
        simp [hpa]
      · rw [List.getLast?_cons_cons]
        rw [hdt] at ih
        exact ih

theorem mem_dropTrailing (p : Char → Bool) :
    ∀ (l : List Char) (c : Char), c ∈ dropTrailing p l → c ∈ l := by
  intro l
  induction l with
  | nil => intro c h; rw [dropTrailing] at h; exact h
  | cons a t ih =>
    intro c h
    rw [dropTrailing] at h
    by_cases hc : (dropTrailing p t).isEmpty && p a
    · rw [if_pos hc] at h; simp at h
    · rw [if_neg hc] at h
      rcases List.mem_cons.mp h with h1 | h1
      · exact h1 ▸ List.mem_cons_self a t
      · exact List.mem_cons_of_mem a (ih c h1)

theorem noAdjWs_dropTrailing :
    ∀ l : List Char, noAdjWs l = true → noAdjWs (dropTrailing pyWs l) = true := by
  intro l
  induction l with
  | nil => intro h; simpa [dropTrailing] using h
  | cons a t ih =>
    intro h
    rw [dropTrailing]
    by_cases hc : (dropTrailing pyWs t).isEmpty && pyWs a
    · rw [if_pos hc]; rfl
    · rw [if_neg hc]
      rw [noAdjWs]
      refine Bool.and_eq_true_iff.mpr ⟨?_, ih (noAdjWs_tail h)⟩
      rcases dropTrailing_head pyWs t with he | he
      · simp [he]
      · rw [he]
        exact (Bool.and_eq_true_iff.mp h).1

theorem collapseWs_fix :
    ∀ l : List Char, noAdjWs l = true → (∀ c ∈ l, pyWs c = true → c = ' ') →
      collapseWs false l = l
      ∧ ((l.head?.all fun c => !pyWs c) = true → collapseWs true l = l) := by
  intro l
  induction l with
  | nil => intro _ _; exact ⟨rfl, fun _ => rfl⟩
  | cons a t ih =>
    intro hadj hws
    have ht := ih (noAdjWs_tail hadj) (fun c hc => hws c (List.mem_cons_of_mem a hc))
    by_cases ha : pyWs a
    · have ha' : a = ' ' := hws a (List.mem_cons_self a t) ha
      have hthead : (t.head?.all fun c => !pyWs c) = true := by
        have h1 := (Bool.and_eq_true_iff.mp hadj).1
        rcases hh : t.head? with _ | d
        · simp
        · rw [hh] at h1
          simp only [Option.all_some] at h1 ⊢
          rw [ha] at h1
          simpa using h1
      constructor
      · rw [collapseWs, if_pos ha, if_neg Bool.false_ne_true, ht.2 hthead, ha']
      · intro hhd
        rw [List.head?_cons] at hhd
        simp only [Option.all_some] at hhd
        rw [ha] at hhd
        simp at hhd
    · constructor
      · rw [collapseWs, if_neg ha, ht.1]
      · intro _
        rw [collapseWs, if_neg ha, ht.1]

theorem dropWhile_fix (p : Char → Bool) (l : List Char)
    (h : (l.head?.all fun c => !p c) = true) : l.dropWhile p = l := by
  cases l with
  | nil => rfl
  | cons a t =>
    rw [List.head?_cons] at h
    simp only [Option.all_some] at h
    rw [List.dropWhile_cons, if_neg (by simpa using h)]

theorem dropTrailing_fix (p : Char → Bool) :
    ∀ l : List Char, ((l.getLast?.all fun c => !p c) = true) →
      dropTrailing p l = l := by
  intro l
  induction l with
  | nil => intro _; rfl
  | cons a t ih =>
    intro h
    cases t with
    | nil =>
      rw [List.getLast?_singleton] at h
      simp only [Option.all_some] at h
      rw [dropTrailing, dropTrailing]
      simp [show p a = false by simpa using h]
    | cons b r =>
      rw [List.getLast?_cons_cons] at h
      have ht := ih h
      rw [dropTrailing, ht]
      simp

theorem pyStrip_collapse_props (X : List Char) (hadjX : noAdjWs X = true)
    (hwsX : ∀ c ∈ X, pyWs c = true → c = ' ') :
    ((pyStrip pyWs X).head?.all fun c => !pyWs c) = true
    ∧ ((pyStrip pyWs X).getLast?.all fun c => !pyWs c) = true
    ∧ noAdjWs (pyStrip pyWs X) = true
    ∧ pyStrip pyWs (collapseWs false (pyStrip pyWs X)) = pyStrip pyWs X := by
  have hhead : ((pyStrip pyWs X).head?.all fun c => !pyWs c) = true := by
    show ((dropTrailing pyWs (X.dropWhile pyWs)).head?.all fun c => !pyWs c) = true
    rcases dropTrailing_head pyWs (X.dropWhile pyWs) with he | he
    · rw [he]; rfl
    · rw [he]; exact head_dropWhile_not pyWs X
  have hlast : ((pyStrip pyWs X).getLast?.all fun c => !pyWs c) = true :=
    dropTrailing_last pyWs _
  have hadj : noAdjWs (pyStrip pyWs X) = true :=
    noAdjWs_dropTrailing _ (noAdjWs_dropWhile pyWs X hadjX)
  have hwsmem : ∀ c ∈ pyStrip pyWs X, pyWs c = true → c = ' ' := by
    intro c hc hws
    have h1 : c ∈ X.dropWhile pyWs := mem_dropTrailing pyWs _ c hc
    have h2 : c ∈ X := (List.dropWhile_sublist pyWs (l := X)).mem h1
    exact hwsX c h2 hws
  refine ⟨hhead, hlast, hadj, ?_⟩
  rw [(collapseWs_fix (pyStrip pyWs X) hadj hwsmem).1]
  show dropTrailing pyWs ((pyStrip pyWs X).dropWhile pyWs) = pyStrip pyWs X
  rw [dropWhile_fix pyWs (pyStrip pyWs X) hhead,
    dropTrailing_fix pyWs (pyStrip pyWs X) hlast]

/-- C9: `clean_spaces` output never has a leading or trailing whitespace
character nor two adjacent whitespace characters, and `clean_spaces` is
idempotent — every stored field value is a fixed point of normalization. -/
theorem clean_spaces_normalizes (s : String) :
    ((clean_spaces s).data.head?.all fun c => !pyWs c) = true
    ∧ ((clean_spaces s).data.getLast?.all fun c => !pyWs c) = true
    ∧ noAdjWs (clean_spaces s).data = true
    ∧ clean_spaces (clean_spaces s) = clean_spaces s := by
  obtain ⟨h1, h2, h3, h4⟩ := pyStrip_collapse_props (collapseWs false s.data)
    (noAdjWs_collapseWs s.data false) (mem_collapseWs_ws s.data false)
  exact ⟨h1, h2, h3, congrArg String.mk h4⟩

/-! ## Low-level read helpers (`text_or_empty` lines 88-94, `tbody_html`
lines 115-119, `active_page_number` lines 139-146)

Source:

  def text_or_empty(loc):
      try:
          if loc.count(): return loc.inner_text().strip()
      except: pass
      return ""

  def tbody_html(container):
      try: return container.locator(TBODY_SELECTOR).first.inner_html() or ""
      except: return ""

  def active_page_number(container) -> Optional[int]:
      try:
          btn = container.locator(ACTIVE_PAGE_BTN).first
          if not btn.count(): return None
          txt = btn.inner_text().strip()
          return int(txt) if txt.isdigit() else None
      except:
          return None

Driver primitives may raise; they are modelled as `Except`-valued fields.
The embedded helpers are total Lean functions — the `try/except` absorption
is the shape of the `match`es below. -/

/-- A driver locator: `count()` and `inner_text()` may each raise. -/
structure Loc where
  cnt : Except String Nat
  innerText : Except String String

/-- Strip of Python whitespace from both ends of a string (`str.strip()`). -/
def pyStripStr (s : String) : String :=
  ⟨pyStrip pyWs s.data⟩

/-- Embedding of `text_or_empty`. -/
def text_or_empty (loc : Loc) : String :=
  match loc.cnt with
  | .error _ => ""
  | .ok n =>
    if n ≠ 0 then
      match loc.innerText with
      | .error _ => ""
      | .ok s => pyStripStr s
    else ""

/-- A list container: reading the tbody's `inner_html()` may raise. -/
structure Container where
  tbodyInnerHtml : Except String String

/-- Embedding of `tbody_html` (the `or ""` is the identity on strings,
since `"" or ""` is `""`). -/
def tbody_html (c : Container) : String :=
  match c.tbodyInnerHtml with
  | .error _ => ""
  | .ok s => s

/-- The paginator's highlighted page button: `count()` and `inner_text()`
may raise. -/
structure ActiveBtn where
  btnCount : Except String Nat
  btnText : Except String String

/-- Python `str.isdigit` restricted to ASCII: nonempty and all decimal
digits. -/
def pyIsDigit (s : String) : Bool :=
  !s.data.isEmpty && s.data.all Char.isDigit

/-- `int(txt)` on a digit string. -/
def digitsToNat (s : String) : Nat :=
  s.data.foldl (fun a c => a * 10 + (c.toNat - '0'.toNat)) 0

/-- Embedding of `active_page_number`. -/
def active_page_number (p : ActiveBtn) : Option Nat :=
  match p.btnCount with
  | .error _ => none
  | .ok n =>
    if n = 0 then none
    else
      match p.btnText with
      | .error _ => none
      | .ok s =>
        if pyIsDigit (pyStripStr s) then some (digitsToNat (pyStripStr s))
        else none

/-- C10: the low-level read helpers absorb every failure of the underlying
driver operations (they are total functions in this embedding, so they
never propagate an exception): `text_or_empty` and `tbody_html` return `""`
whenever `count`/`inner_text`/`inner_html` fail, and `active_page_number`
returns `none` whenever the page indicator is absent (count 0), unreadable
(a read raises), or its text is non-numeric; on a readable numeric
indicator it returns the parsed number. -/
theorem read_helpers_total :
    (∀ (loc : Loc) (e : String), loc.cnt = .error e → text_or_empty loc = "")
    ∧ (∀ (loc : Loc) (n : Nat) (e : String), loc.cnt = .ok n →
        loc.innerText = .error e → text_or_empty loc = "")
    ∧ (∀ (loc : Loc) (n : Nat) (s : String), loc.cnt = .ok n → n ≠ 0 →
        loc.innerText = .ok s → text_or_empty loc = pyStripStr s)
    ∧ (∀ (c : Container) (e : String), c.tbodyInnerHtml = .error e →
        tbody_html c = "")
    ∧ (∀ (p : ActiveBtn) (e : String), p.btnCount = .error e →
        active_page_number p = none)
    ∧ (∀ p : ActiveBtn, p.btnCount = .ok 0 → active_page_number p = none)
    ∧ (∀ (p : ActiveBtn) (n : Nat) (e : String), p.btnCount = .ok n → n ≠ 0 →
        p.btnText = .error e → active_page_number p = none)
    ∧ (∀ (p : ActiveBtn) (n : Nat) (s : String), p.btnCount = .ok n → n ≠ 0 →
        p.btnText = .ok s → pyIsDigit (pyStripStr s) = false →
        active_page_number p = none)
    ∧ (∀ (p : ActiveBtn) (n : Nat) (s : String), p.btnCount = .ok n → n ≠ 0 →
        p.btnText = .ok s → pyIsDigit (pyStripStr s) = true →
        active_page_number p = some (digitsToNat (pyStripStr s))) := by
  refine ⟨?_, ?_, ?_, ?_, ?_, ?_, ?_, ?_, ?_⟩
  · intro loc e h; simp [text_or_empty, h]
  · intro loc n e h1 h2; simp [text_or_empty, h1, h2]
  · intro loc n s h1 hn h2; simp [text_or_empty, h1, h2, hn]
  · intro c e h; simp [tbody_html, h]
  · intro p e h; simp [active_page_number, h]
  · intro p h; simp [active_page_number, h]
  · intro p n e h1 hn h2; simp [active_page_number, h1, h2, hn]
  · intro p n s h1 hn h2 h3; simp [active_page_number, h1, h2, hn, h3]
  · intro p n s h1 hn h2 h3; simp [active_page_number, h1, h2, hn, h3]

/-- Witness for C10: concrete raising locator, raising container and a
readable numeric indicator. -/
theorem read_helpers_total_witness :
    text_or_empty ⟨.error "boom", .error "boom"⟩ = ""
    ∧ tbody_html ⟨.error "boom"⟩ = ""
    ∧ active_page_number ⟨.ok 1, .error "boom"⟩ = none
    ∧ active_page_number ⟨.ok 1, .ok " 12 "⟩ = some 12 := by
  refine ⟨read_helpers_total.1 ⟨.error "boom", .error "boom"⟩ "boom" rfl,
    read_helpers_total.2.2.2.1 ⟨.error "boom"⟩ "boom" rfl,
    read_helpers_total.2.2.2.2.2.2.1 ⟨.ok 1, .error "boom"⟩ 1 "boom" rfl
      (by decide) rfl, ?_⟩
  have h := read_helpers_total.2.2.2.2.2.2.2.2 ⟨.ok 1, .ok " 12 "⟩ 1 " 12 "
    rfl (by decide) rfl (by decide)
  rw [h]
  decide

/-! ## Activity-ID derivation and detail extraction
(`extract_activity_id_from_url` lines 241-245, `extract_detail` lines
247-286)

Source:

  def extract_activity_id_from_url(url: str) -> str:
      path = urlsplit(url).path.strip("/")
      last = path.split("/")[-1] if path else ""
      m = re.search(r"(\d+)$", last)
      return m.group(1) if m else last or ""

`urlsplit(url).path` is embedded following CPython's algorithm: drop a
leading `scheme:` (first char alphabetic, all scheme chars) if present,
drop a `//netloc` up to the next `/`, `?` or `#`, then truncate at the
first `#` and the first `?`.  `re.search(r"(\d+)$", last)` matches exactly
the maximal nonempty digit suffix of `last`.

`extract_detail` reads the page's URL, then every labeled form group
(label and nonempty cleaned value paragraphs joined with " | "), then
every `h5` section (title and following block text), then the accredited
hours singleton, inserting into an insertion-ordered dict.  The detail
page is abstracted as the already-read text of those elements; the
Scientific-Program sub-component wait (lines 271-276) only delays reading
and adds no field of its own. -/

def isSchemeChar (c : Char) : Bool :=
  c.isAlpha || c.isDigit || c = '+' || c = '-' || c = '.'

/-- Index of the first `':'` (length of `url[:url.find(':')]`). -/
def schemeEnd (l : List Char) : Nat :=
  (l.takeWhile fun c => !(c == ':')).length

/-- CPython's scheme test: a `':'` occurs, the prefix before it is
nonempty, starts with a letter and has only scheme characters. -/
def hasScheme (l : List Char) : Bool :=
  decide (schemeEnd l < l.length)
  && !(l.takeWhile fun c => !(c == ':')).isEmpty
  && ((l.takeWhile fun c => !(c == ':')).head?.all Char.isAlpha)
  && ((l.takeWhile fun c => !(c == ':')).all isSchemeChar)

def dropScheme (l : List Char) : List Char :=
  if hasScheme l then l.drop (schemeEnd l + 1) else l

/-- Drop `//netloc` (up to the next `/`, `?` or `#`) if present. -/
def dropNetloc : List Char → List Char
  | '/' :: '/' :: rest => rest.dropWhile fun c => !(c == '/' || c == '?' || c == '#')
  | l => l

/-- `urlsplit(url).path` as a character list. -/
def urlsplitPath (url : String) : List Char :=
  ((dropNetloc (dropScheme url.data)).takeWhile fun c => !(c == '#')).takeWhile
    fun c => !(c == '?')

/-- Last element of `path.split("/")`. -/
def lastSegment (l : List Char) : List Char :=
  l.foldl (fun acc c => if c == '/' then [] else acc ++ [c]) []

/-- The maximal digit suffix — exactly what `re.search(r"(\d+)$", last)`
captures. -/
def trailingDigits (l : List Char) : List Char :=
  (l.reverse.takeWhile Char.isDigit).reverse

/-- `path.split("/")[-1] if path else ""` after `path = …​.strip("/")`. -/
def lastPathSegment (url : String) : List Char :=
  if (pyStrip (fun c => c == '/') (urlsplitPath url)).isEmpty then []
  else lastSegment (pyStrip (fun c => c == '/') (urlsplitPath url))

/-- Embedding of `extract_activity_id_from_url`. -/
def extract_activity_id_from_url (url : String) : String :=
  if (trailingDigits (lastPathSegment url)).isEmpty then ⟨lastPathSegment url⟩
  else ⟨trailingDigits (lastPathSegment url)⟩

/-- Insertion-ordered dict assignment `d[k] = v`: update the value in
place if the key exists, else append (CPython dict semantics). -/
def dinsert : List (String × String) → String → String → List (String × String)
  | [], k, v => [(k, v)]
  | a :: t, k, v => if a.1 = k then (k, v) :: t else a :: dinsert t k v

/-- Dict lookup `d[k]` (keys are unique in dicts built by `dinsert`, so
first-match lookup is dict lookup). -/
def dlookup : List (String × String) → String → Option String
  | [], _ => none
  | a :: t, k => if a.1 = k then some a.2 else dlookup t k

/-- A detail page, abstracted as the already-read text of its elements:
the current URL, form groups (raw label text and raw value paragraphs),
`h5` sections (raw title and following-block text), and the accredited
hours value ("" when absent). -/
structure DetailPage where
  url : String
  groups : List (String × List String)
  sections : List (String × String)
  accred : String

/-- Cleaned, nonempty value paragraphs of a form group. -/
def groupVals (ps : List String) : List String :=
  (ps.map clean_spaces).filter fun v => ¬(v = "")

/-- Per-form-group body of the first loop of `extract_detail`. -/
def groupStep (d : List (String × String)) (g : String × List String) :
    List (String × String) :=
  if clean_spaces g.1 = "" then d
  else if (groupVals g.2).isEmpty then d
  else dinsert d (clean_spaces g.1) (String.intercalate " | " (groupVals g.2))

/-- Per-`h5`-section body of the second loop of `extract_detail`. -/
def sectionStep (d : List (String × String)) (sec : String × String) :
    List (String × String) :=
  if clean_spaces sec.1 = "" then d
  else if clean_spaces sec.2 = "" then d
  else dinsert d (clean_spaces sec.1) (clean_spaces sec.2)

/-- The trailing accredited-hours read of `extract_detail`. -/
def accredStep (d : List (String × String)) (a : String) :
    List (String × String) :=
  if clean_spaces a = "" then d
  else dinsert d "Accredited CME Hours" (clean_spaces a)

/-- Embedding of `extract_detail`. -/
def extract_detail (pg : DetailPage) : List (String × String) :=
  accredStep
    (pg.sections.foldl sectionStep
      (pg.groups.foldl groupStep
        (dinsert (dinsert [] "URL" pg.url) "Activity ID"
          (extract_activity_id_from_url pg.url))))
    pg.accred

theorem dlookup_dinsert_self (d : List (String × String)) (k v : String) :
    dlookup (dinsert d k v) k = some v := by
  induction d with
  | nil => simp [dinsert, dlookup]
  | cons a t ih =>
    rw [dinsert]
    by_cases h : a.1 = k
    · rw [if_pos h]
      simp [dlookup]
    · rw [if_neg h, dlookup, if_neg h]
      exact ih

theorem dlookup_dinsert_ne (d : List (String × String)) (k v k' : String)
    (hne : k' ≠ k) : dlookup (dinsert d k v) k' = dlookup d k' := by
  induction d with
  | nil =>
    simp only [dinsert, dlookup]
    rw [if_neg (fun hc : k = k' => hne hc.symm)]
  | cons a t ih =>
    rw [dinsert]
    by_cases h : a.1 = k
    · rw [if_pos h, dlookup, dlookup]
      rw [if_neg (fun hc : k = k' => hne hc.symm),
        if_neg (fun hc : a.1 = k' => hne (hc.symm.trans h))]
    · rw [if_neg h, dlookup, dlookup]
      by_cases h2 : a.1 = k'
      · rw [if_pos h2, if_pos h2]
      · rw [if_neg h2, if_neg h2]
        exact ih

theorem dlookup_dinsert_isSome (d : List (String × String)) (k v k0 : String)
    (h : (dlookup d k0).isSome = true) :
    (dlookup (dinsert d k v) k0).isSome = true := by
  by_cases hk : k0 = k
  · subst hk
    rw [dlookup_dinsert_self]
    rfl
  · rw [dlookup_dinsert_ne d k v k0 hk]
    exact h

theorem groupStep_preserves (d : List (String × String))
    (g : String × List String) (K : String) (h : clean_spaces g.1 ≠ K) :
    dlookup (groupStep d g) K = dlookup d K := by
  rw [groupStep]
  split
  · rfl
  · split
    · rfl
    · exact dlookup_dinsert_ne d _ _ K (fun hc => h hc.symm)

theorem groups_fold_preserves (K : String) :
    ∀ (L : List (String × List String)) (d : List (String × String)),
      (∀ g ∈ L, clean_spaces g.1 ≠ K) →
      dlookup (L.foldl groupStep d) K = dlookup d K := by
  intro L
  induction L with
  | nil => intro d _; rfl
  | cons g t ih =>
    intro d hL
    rw [List.foldl_cons]
    rw [ih (groupStep d g) (fun x hx => hL x (List.mem_cons_of_mem g hx))]
    exact groupStep_preserves d g K (hL g (List.mem_cons_self g t))

theorem groupStep_isSome (d : List (String × String))
    (g : String × List String) (K : String)
    (h : (dlookup d K).isSome = true) :
    (dlookup (groupStep d g) K).isSome = true := by
  rw [groupStep]
  split
  · exact h
  · split
    · exact h
    · exact dlookup_dinsert_isSome d _ _ K h

theorem groups_fold_isSome (K : String) :
    ∀ (L : List (String × List String)) (d : List (String × String)),
      (dlookup d K).isSome = true →
      (dlookup (L.foldl groupStep d) K).isSome = true := by
  intro L
  induction L with
  | nil => intro d h; exact h
  | cons g t ih =>
    intro d h
    rw [List.foldl_cons]
    exact ih (groupStep d g) (groupStep_isSome d g K h)

theorem sectionStep_preserves (d : List (String × String))
    (sec : String × String) (K : String) (h : clean_spaces sec.1 ≠ K) :
    dlookup (sectionStep d sec) K = dlookup d K := by
  rw [sectionStep]
  split
  · rfl
  · split
    · rfl
    · exact dlookup_dinsert_ne d _ _ K (fun hc => h hc.symm)

theorem sections_fold_preserves (K : String) :
    ∀ (L : List (String × String)) (d : List (String × String)),
      (∀ sec ∈ L, clean_spaces sec.1 ≠ K) →
      dlookup (L.foldl sectionStep d) K = dlookup d K := by
  intro L
  induction L with
  | nil => intro d _; rfl
  | cons sec t ih =>
    intro d hL
    rw [List.foldl_cons]
    rw [ih (sectionStep d sec) (fun x hx => hL x (List.mem_cons_of_mem sec hx))]
    exact sectionStep_preserves d sec K (hL sec (List.mem_cons_self sec t))

theorem sectionStep_isSome (d : List (String × String))
    (sec : String × String) (K : String)
    (h : (dlookup d K).isSome = true) :
    (dlookup (sectionStep d sec) K).isSome = true := by
  rw [sectionStep]
  split
  · exact h
  · split
    · exact h
    · exact dlookup_dinsert_isSome d _ _ K h

theorem sections_fold_isSome (K : String) :
    ∀ (L : List (String × String)) (d : List (String × String)),
      (dlookup d K).isSome = true →
      (dlookup (L.foldl sectionStep d) K).isSome = true := by
  intro L
  induction L with
  | nil => intro d h; exact h
  | cons sec t ih =>
    intro d h
    rw [List.foldl_cons]
    exact ih (sectionStep d sec) (sectionStep_isSome d sec K h)

theorem accredStep_isSome (d : List (String × String)) (a K : String)
    (h : (dlookup d K).isSome = true) :
    (dlookup (accredStep d a) K).isSome = true := by
  rw [accredStep]
  split
  · exact h
  · exact dlookup_dinsert_isSome d _ _ K h

/-- Counterexample to C7: the code sets `data["Activity ID"]` from the URL
first and then inserts page fields by their visible labels, so a detail
page carrying a form group labeled "Activity ID" overwrites the
URL-derived value — the stored Activity ID is the page text "X9", not the
trailing numeric path segment "123". -/
theorem extract_detail_id_overwritten :
    extract_activity_id_from_url "https://mustamir.scfhs.org.sa/a/123" = "123"
    ∧ dlookup
        (extract_detail
          ⟨"https://mustamir.scfhs.org.sa/a/123", [("Activity ID", ["X9"])], [], ""⟩)
        "Activity ID" = some "X9"
    ∧ ("X9" : String) ≠ "123" := by
  refine ⟨by decide, by decide, by decide⟩

/-- C7 (amended): every record of a successful extraction contains the
keys `URL` and `Activity ID`; and provided no form-group label and no
section title on the page normalizes to `"Activity ID"` (the real site's
labels never do), the stored Activity ID is derived deterministically from
the detail view's address by `extract_activity_id_from_url` — the trailing
numeric path segment, or the raw last path segment if there is none. -/
theorem extract_detail_ids (pg : DetailPage)
    (h1 : ∀ g ∈ pg.groups, clean_spaces g.1 ≠ "Activity ID")
    (h2 : ∀ sec ∈ pg.sections, clean_spaces sec.1 ≠ "Activity ID") :
    (dlookup (extract_detail pg) "URL").isSome = true
    ∧ dlookup (extract_detail pg) "Activity ID" =
        some (extract_activity_id_from_url pg.url) := by
  constructor
  · apply accredStep_isSome
    apply sections_fold_isSome "URL" pg.sections
    apply groups_fold_isSome "URL" pg.groups
    apply dlookup_dinsert_isSome
    rw [dlookup_dinsert_self]
    rfl
  · rw [extract_detail]
    have hacc : ∀ d : List (String × String),
        dlookup (accredStep d pg.accred) "Activity ID" = dlookup d "Activity ID" := by
      intro d
      rw [accredStep]
      split
      · rfl
      · exact dlookup_dinsert_ne d _ _ _ (by decide)
    rw [hacc]
    rw [sections_fold_preserves "Activity ID" pg.sections _ h2]
    rw [groups_fold_preserves "Activity ID" pg.groups _ h1]
    exact dlookup_dinsert_self _ _ _

/-- Witness for C7 (amended): a benign detail page stores the URL-derived
Activity ID. -/
theorem extract_detail_ids_witness :
    (dlookup (extract_detail ⟨"https://h/a/55", [("Title", ["T"])], [], "3"⟩)
      "URL").isSome = true
    ∧ dlookup (extract_detail ⟨"https://h/a/55", [("Title", ["T"])], [], "3"⟩)
        "Activity ID" =
        some (extract_activity_id_from_url "https://h/a/55") :=
  extract_detail_ids ⟨"https://h/a/55", [("Title", ["T"])], [], "3"⟩
    (by intro g hg; simp at hg; rw [hg]; decide)
    (by intro sec hsec; simp at hsec)

/-! ## Cumulative master sink (`save_row_to_excels`, lines 289-305)

Source (the master-exists branch):

  master = pd.read_excel(MASTER_XLSX)
  all_cols = list(dict.fromkeys(list(master.columns) + list(row_dict.keys())))
  master = master.reindex(columns=all_cols)
  new_row = pd.DataFrame([row_dict]).reindex(columns=all_cols)
  master = pd.concat([master, new_row], ignore_index=True)

The master workbook is a column list plus a grid of rows aligned with it
(cell `i` of a row belongs to column `i`); `NaN`/blank cells are `none`.
`dict.fromkeys` deduplicates keeping first occurrences; `reindex` looks
cells up by column name, blank for unknown columns. -/

/-- `list(dict.fromkeys(·))`: first-occurrence deduplication; `seen` holds
the keys already emitted. -/
def fromkeys (seen : List String) : List String → List String
  | [] => []
  | k :: ks => if k ∈ seen then fromkeys seen ks else k :: fromkeys (k :: seen) ks

/-- The master workbook: ordered columns and rows of cells aligned with
them. -/
structure Master where
  cols : List String
  rows : List (List (Option String))

/-- `reindex` cell lookup: the cell of column `c` in a row whose cells are
aligned with `cols`; blank (`none`) when `c` is not among `cols`. -/
def reindexCell : List String → List (Option String) → String → Option String
  | [], _, _ => none
  | _ :: _, [], _ => none
  | c0 :: cols, x :: r, c => if c0 = c then x else reindexCell cols r c

/-- The master-exists branch of `save_row_to_excels`: extend the column
set with the record's novel keys, re-align existing rows, and append the
record's row. -/
def save_row_master (m : Master) (rec : List (String × String)) : Master :=
  { cols := fromkeys [] (m.cols ++ rec.map Prod.fst),
    rows := m.rows.map
        (fun r => (fromkeys [] (m.cols ++ rec.map Prod.fst)).map (reindexCell m.cols r))
      ++ [(fromkeys [] (m.cols ++ rec.map Prod.fst)).map (dlookup rec)] }

theorem fromkeys_append (ks : List String) :
    ∀ (cols seen : List String), cols.Nodup → (∀ c ∈ cols, ¬ c ∈ seen) →
      fromkeys seen (cols ++ ks) = cols ++ fromkeys (cols.reverse ++ seen) ks := by
  intro cols
  induction cols with
  | nil => intro seen _ _; simp
  | cons c cs ih =>
    intro seen hnd hsn
    rw [List.cons_append, fromkeys,
      if_neg (hsn c (List.mem_cons_self c cs))]
    rw [ih (c :: seen) (List.Nodup.of_cons hnd)
      (fun x hx => by
        intro hmem
        rcases List.mem_cons.mp hmem with h1 | h1
        · exact (List.nodup_cons.mp hnd).1 (h1 ▸ hx)
        · exact hsn x (List.mem_cons_of_mem c hx) h1)]
    simp [List.append_assoc]

theorem fromkeys_congr (ks : List String) :
    ∀ seen seen' : List String, (∀ x, x ∈ seen ↔ x ∈ seen') →
      fromkeys seen ks = fromkeys seen' ks := by
  induction ks with
  | nil => intro seen seen' _; rfl
  | cons k t ih =>
    intro seen seen' hiff
    rw [fromkeys, fromkeys]
    by_cases h : k ∈ seen
    · rw [if_pos h, if_pos ((hiff k).mp h)]
      exact ih seen seen' hiff
    · rw [if_neg h, if_neg (fun hc => h ((hiff k).mpr hc))]
      rw [ih (k :: seen) (k :: seen') (fun x => by
        simp only [List.mem_cons]
        exact or_congr Iff.rfl (hiff x))]

theorem fromkeys_sublist (ks : List String) :
    ∀ seen : List String, (fromkeys seen ks).Sublist ks := by
  induction ks with
  | nil => intro seen; exact List.Sublist.refl []
  | cons k t ih =>
    intro seen
    rw [fromkeys]
    by_cases h : k ∈ seen
    · rw [if_pos h]
      exact List.Sublist.cons k (ih seen)
    · rw [if_neg h]
      exact List.Sublist.cons₂ k (ih (k :: seen))

theorem fromkeys_not_mem_seen (ks : List String) :
    ∀ (seen : List String) (k : String), k ∈ fromkeys seen ks → ¬ k ∈ seen := by
  induction ks with
  | nil => intro seen k h; simp [fromkeys] at h
  | cons k0 t ih =>
    intro seen k h
    rw [fromkeys] at h
    by_cases h0 : k0 ∈ seen
    · rw [if_pos h0] at h
      exact ih seen k h
    · rw [if_neg h0] at h
      rcases List.mem_cons.mp h with h1 | h1
      · exact h1 ▸ h0
      · intro hmem
        exact ih (k0 :: seen) k h1 (List.mem_cons_of_mem k0 hmem)

theorem reindexCell_not_mem :
    ∀ (cols : List String) (r : List (Option String)) (c : String),
      ¬ c ∈ cols → reindexCell cols r c = none := by
  intro cols
  induction cols with
  | nil => intro r c _; rfl
  | cons c0 cs ih =>
    intro r c hc
    cases r with
    | nil => rfl
    | cons x r' =>
      rw [reindexCell,
        if_neg (fun h : c0 = c => hc (by rw [← h]; exact List.mem_cons_self c0 cs))]
      exact ih r' c (fun h => hc (List.mem_cons_of_mem c0 h))

theorem map_reindexCell_self :
    ∀ (cols : List String) (r : List (Option String)), cols.Nodup →
      r.length = cols.length →
      cols.map (fun c => reindexCell cols r c) = r := by
  intro cols
  induction cols with
  | nil =>
    intro r _ hlen
    rw [List.length_nil, List.length_eq_zero] at hlen
    rw [hlen]
    rfl
  | cons c0 cs ih =>
    intro r hnd hlen
    cases r with
    | nil => simp at hlen
    | cons x r' =>
      rw [List.map_cons]
      rw [show reindexCell (c0 :: cs) (x :: r') c0 = x from by
        rw [reindexCell, if_pos rfl]]
      have hmap : cs.map (fun c => reindexCell (c0 :: cs) (x :: r') c)
          = cs.map (fun c => reindexCell cs r' c) := by
        apply List.map_congr_left
        intro c hc
        rw [reindexCell,
          if_neg (fun h : c0 = c => (List.nodup_cons.mp hnd).1 (by rw [h]; exact hc))]
      rw [hmap, ih r' (List.Nodup.of_cons hnd) (by simpa using hlen)]

theorem map_reindexCell_novel (cols : List String) (r : List (Option String)) :
    ∀ L : List String, (∀ c ∈ L, ¬ c ∈ cols) →
      L.map (fun c => reindexCell cols r c) = List.replicate L.length none := by
  intro L
  induction L with
  | nil => intro _; rfl
  | cons c cs ih =>
    intro hL
    rw [List.map_cons, reindexCell_not_mem cols r c (hL c (List.mem_cons_self c cs)),
      ih (fun x hx => hL x (List.mem_cons_of_mem c hx))]
    rfl

theorem save_row_master_cols (m : Master) (rec : List (String × String))
    (hnodup : m.cols.Nodup) :
    (save_row_master m rec).cols
      = m.cols ++ fromkeys m.cols (rec.map Prod.fst) := by
  show fromkeys [] (m.cols ++ rec.map Prod.fst)
    = m.cols ++ fromkeys m.cols (rec.map Prod.fst)
  rw [fromkeys_append (rec.map Prod.fst) m.cols [] hnodup (by simp)]
  rw [fromkeys_congr (rec.map Prod.fst) (m.cols.reverse ++ []) m.cols
    (fun x => by simp)]

/-- C8: appending a record to an existing master workbook (`hnodup`,
`hrows`: well-formed column set and aligned rows) yields a column list
that begins with all existing columns in their original order followed by
the record's novel keys in first-seen order (an order-preserving,
duplicate-free selection of the record's keys, none of them already a
column); existing rows are kept in order and padded with blank cells in
the new columns, and the record's row is appended with each cell looked up
by column name. -/
theorem save_row_master_spec (m : Master) (rec : List (String × String))
    (hnodup : m.cols.Nodup) (hrows : ∀ r ∈ m.rows, r.length = m.cols.length) :
    (save_row_master m rec).cols
        = m.cols ++ fromkeys m.cols (rec.map Prod.fst)
    ∧ (fromkeys m.cols (rec.map Prod.fst)).Sublist (rec.map Prod.fst)
    ∧ (∀ k ∈ fromkeys m.cols (rec.map Prod.fst), ¬ k ∈ m.cols)
    ∧ (save_row_master m rec).rows
        = m.rows.map (fun r =>
            r ++ List.replicate (fromkeys m.cols (rec.map Prod.fst)).length none)
          ++ [(m.cols ++ fromkeys m.cols (rec.map Prod.fst)).map (dlookup rec)] := by
  have hcols := save_row_master_cols m rec hnodup
  refine ⟨hcols, fromkeys_sublist (rec.map Prod.fst) m.cols,
    fun k hk => fromkeys_not_mem_seen (rec.map Prod.fst) m.cols k hk, ?_⟩
  show m.rows.map
      (fun r => (fromkeys [] (m.cols ++ rec.map Prod.fst)).map (reindexCell m.cols r))
    ++ [(fromkeys [] (m.cols ++ rec.map Prod.fst)).map (dlookup rec)] = _
  have hall : fromkeys [] (m.cols ++ rec.map Prod.fst)
      = m.cols ++ fromkeys m.cols (rec.map Prod.fst) := hcols
  rw [hall]
  congr 1
  apply List.map_congr_left
  intro r hr
  rw [List.map_append]
  congr 1
  · exact map_reindexCell_self m.cols r hnodup (hrows r hr)
  · exact map_reindexCell_novel m.cols r _
      (fun c hc => fromkeys_not_mem_seen (rec.map Prod.fst) m.cols c hc)

/-- Witness for C8: master with columns `["URL", "A"]` and one row gains
column `"B"` at the end; the old row is padded with a blank cell. -/
theorem save_row_master_spec_witness :
    (save_row_master ⟨["URL", "A"], [[some "u", some "a"]]⟩
        [("URL", "u2"), ("B", "b")]).cols = ["URL", "A", "B"]
    ∧ (save_row_master ⟨["URL", "A"], [[some "u", some "a"]]⟩
        [("URL", "u2"), ("B", "b")]).rows
      = [[some "u", some "a", none], [some "u2", none, some "b"]] := by
  have h := save_row_master_spec ⟨["URL", "A"], [[some "u", some "a"]]⟩
    [("URL", "u2"), ("B", "b")] (by decide) (by decide)
  refine ⟨?_, ?_⟩
  · rw [h.1]
    decide
  · rw [h.2.2.2]
    decide

/-! ## Run orchestration (`main`, lines 326-456; `recover_list`, lines
308-322)

`main` validates the shard parameters first (lines 331-334), before any
path setup, browser launch or navigation.  Startup (lines 367-394) then
launches the browser, retries `page.goto(ROOT_URL)` until it succeeds
(unbounded in the source; fuelled here), switches to English, acquires the
list container and fast-forwards to the shard's start page.  The page loop
(lines 398-454) processes each row — find the view affordance, click
through, extract, save, go back, `recover_list` — catching every row-level
exception: the handler (lines 432-437) calls `recover_list` once more and,
if that also raises, just `continue`s to the next row.  `recover_list`
itself raises when `get_list_container` exhausts its bounded timeout.  The
loop ends via the `--max-pages` cap or a failed stride advance.

Each remote interaction is recorded as a `RunAction`; the environment
answers, per page iteration `i` and row `r`, whether each interaction
succeeds.  The trace makes the control flow checkable: in the source, no
handler inside the loop navigates to `ROOT_URL` or re-runs the English
switch — those happen only in startup. -/

inductive RunAction where
  | launchBrowser
  | gotoRoot
  | switchEnglish
  | acquireList
  | fastForward
  | viewRow (r : Nat)
  | extractRow (r : Nat)
  | saveRow (r : Nat)
  | goBack (r : Nat)
  | recoverAttempt (r : Nat)
  | skipRow (r : Nat)
  | checkpoint
  | advanceStride
deriving DecidableEq

inductive RunOutcome where
  | configError (msg : String)
  | finished
  | outOfFuel
deriving DecidableEq

/-- The remote behaviour: per goto attempt `k`, per page iteration `i` and
row `r`, whether each interaction succeeds. -/
structure RunEnv where
  gotoOk : Nat → Bool
  rowCount : Nat → Nat
  rowEye : Nat → Nat → Bool
  rowNavOk : Nat → Nat → Bool
  extractOk : Nat → Nat → Bool
  recover1 : Nat → Nat → Bool
  nextOk : Nat → Bool

/-- One row of the row loop (lines 405-437).  `rowEye` false: no view
affordance, the row is skipped (line 410-412).  `rowNavOk` true: the
click-through sequence runs — extraction may soft-fail (inner
`try/except`, lines 417-425), then back-navigation and `recover_list`
(line 431); if that recover raises (`recover1` false), the outer handler
calls `recover_list` once more (line 435).  `rowNavOk` false: the outer
handler (lines 432-437) runs one `recover_list`.  Every path continues to
the next row. -/
def rowStep (env : RunEnv) (i r : Nat) : List RunAction :=
  if env.rowEye i r = false then [RunAction.skipRow r]
  else if env.rowNavOk i r then
    [RunAction.viewRow r]
    ++ (if env.extractOk i r then [RunAction.extractRow r, RunAction.saveRow r]
        else [RunAction.extractRow r])
    ++ [RunAction.goBack r]
    ++ (if env.recover1 i r then [RunAction.recoverAttempt r]
        else [RunAction.recoverAttempt r, RunAction.recoverAttempt r])
  else [RunAction.viewRow r, RunAction.recoverAttempt r]

/-- One iteration of the page loop body before the advance decision
(lines 399-440): all rows, then the forced master checkpoint. -/
def pageStep (env : RunEnv) (i : Nat) : List RunAction :=
  (List.range (env.rowCount i)).flatMap (fun r => rowStep env i r)
    ++ [RunAction.checkpoint]

/-- The page loop (lines 398-454): process the page, stop at the
`--max-pages` cap, otherwise advance by the stride via `click_next_k` and
stop when that fails. -/
def runLoop (env : RunEnv) (maxPages : Nat) : Nat → Nat → List RunAction × RunOutcome
  | 0, _ => ([], RunOutcome.outOfFuel)
  | fuel + 1, i =>
    if maxPages ≠ 0 ∧ maxPages ≤ i + 1 then (pageStep env i, RunOutcome.finished)
    else if env.nextOk i then
      ((pageStep env i ++ [RunAction.advanceStride])
          ++ (runLoop env maxPages fuel (i + 1)).1,
        (runLoop env maxPages fuel (i + 1)).2)
    else (pageStep env i, RunOutcome.finished)

/-- The unbounded initial `page.goto(ROOT_URL)` retry loop (lines
373-379), fuelled. -/
def gotoLoop (env : RunEnv) : Nat → Nat → List RunAction
  | 0, _ => []
  | f + 1, k =>
    RunAction.gotoRoot :: (if env.gotoOk k then [] else gotoLoop env f (k + 1))

structure RunConfig where
  maxPages : Nat
  startPage : Int
  shardCount : Int
  shardIndex : Int

/-- Embedding of `main`: shard validation first (lines 331-334), then the
startup protocol and the page loop.  On a configuration error nothing else
runs: the trace is empty. -/
def mainRun (cfg : RunConfig) (env : RunEnv) (gfuel lfuel : Nat) :
    List RunAction × RunOutcome :=
  if cfg.shardCount < 1 then
    ([], RunOutcome.configError "--shard-count must be >= 1")
  else if ¬(0 ≤ cfg.shardIndex ∧ cfg.shardIndex < cfg.shardCount) then
    ([], RunOutcome.configError "--shard-index must be in [0, shard-count-1]")
  else
    (([RunAction.launchBrowser] ++ gotoLoop env gfuel 0
        ++ [RunAction.switchEnglish, RunAction.acquireList]
        ++ (if 1 < max 1 cfg.startPage
              + (if 1 < cfg.shardCount then cfg.shardIndex else 0)
            then [RunAction.fastForward] else []))
      ++ (runLoop env cfg.maxPages lfuel 0).1,
      (runLoop env cfg.maxPages lfuel 0).2)

theorem runLoop_not_configError (env : RunEnv) (maxPages : Nat) :
    ∀ (fuel i : Nat) (msg : String),
      (runLoop env maxPages fuel i).2 ≠ RunOutcome.configError msg := by
  intro fuel
  induction fuel with
  | zero => intro i msg h; simp [runLoop] at h
  | succ n ih =>
    intro i msg h
    rw [runLoop] at h
    split at h
    · simp at h
    · split at h
      · exact ih (i + 1) msg h
      · simp at h

/-- C6: `main` raises a configuration error exactly when `shardCount < 1`
or `shardIndex` is outside `[0, shardCount)`, and in that case it performs
no action at all — no browser launch, no navigation (fail-fast: the
validation is the first statement of `main`). -/
theorem config_validation (cfg : RunConfig) (env : RunEnv) (gfuel lfuel : Nat) :
    ((∃ msg, (mainRun cfg env gfuel lfuel).2 = RunOutcome.configError msg)
      ↔ (cfg.shardCount < 1 ∨ ¬(0 ≤ cfg.shardIndex ∧ cfg.shardIndex < cfg.shardCount)))
    ∧ ((∃ msg, (mainRun cfg env gfuel lfuel).2 = RunOutcome.configError msg)
      → (mainRun cfg env gfuel lfuel).1 = []) := by
  constructor
  · constructor
    · intro ⟨msg, hmsg⟩
      by_contra hcon
      push_neg at hcon
      rw [mainRun, if_neg (by omega), if_neg (by
        intro hneg
        exact hneg ⟨by omega, by omega⟩)] at hmsg
      exact runLoop_not_configError env cfg.maxPages lfuel 0 msg hmsg
    · intro h
      rcases h with h | h
      · exact ⟨_, by rw [mainRun, if_pos h]⟩
      · by_cases h1 : cfg.shardCount < 1
        · exact ⟨_, by rw [mainRun, if_pos h1]⟩
        · exact ⟨_, by rw [mainRun, if_neg h1, if_pos h]⟩
  · intro ⟨msg, hmsg⟩
    by_cases h1 : cfg.shardCount < 1
    · rw [mainRun, if_pos h1]
    · by_cases h2 : 0 ≤ cfg.shardIndex ∧ cfg.shardIndex < cfg.shardCount
      · exfalso
        rw [mainRun, if_neg h1, if_neg (fun hc => hc h2)] at hmsg
        exact runLoop_not_configError env cfg.maxPages lfuel 0 msg hmsg
      · rw [mainRun, if_neg h1, if_pos h2]

/-- Witness for C6: `shardIndex = 2` with `shardCount = 2` is rejected
before anything runs. -/
theorem config_validation_witness :
    (∃ msg, (mainRun ⟨0, 1, 2, 2⟩
        ⟨fun _ => true, fun _ => 0, fun _ _ => false, fun _ _ => false,
         fun _ _ => false, fun _ _ => false, fun _ => false⟩ 1 1).2
      = RunOutcome.configError msg)
    ∧ (mainRun ⟨0, 1, 2, 2⟩
        ⟨fun _ => true, fun _ => 0, fun _ _ => false, fun _ _ => false,
         fun _ _ => false, fun _ _ => false, fun _ => false⟩ 1 1).1 = [] := by
  have h := config_validation ⟨0, 1, 2, 2⟩
    ⟨fun _ => true, fun _ => 0, fun _ _ => false, fun _ _ => false,
     fun _ _ => false, fun _ _ => false, fun _ => false⟩ 1 1
  have hex := h.1.mpr (Or.inr (by decide))
  exact ⟨hex, h.2 hex⟩

theorem rowStep_no_reconnect (env : RunEnv) (i r : Nat) :
    ¬ RunAction.gotoRoot ∈ rowStep env i r
    ∧ ¬ RunAction.switchEnglish ∈ rowStep env i r := by
  rw [rowStep]
  split
  · simp
  · split
    · split <;> split <;> simp
    · simp

theorem pageStep_no_reconnect (env : RunEnv) (i : Nat) :
    ¬ RunAction.gotoRoot ∈ pageStep env i
    ∧ ¬ RunAction.switchEnglish ∈ pageStep env i := by
  rw [pageStep]
  constructor <;>
  · intro h
    rcases List.mem_append.mp h with h1 | h1
    · rw [List.mem_flatMap] at h1
      obtain ⟨r, _, hmem⟩ := h1
      first
        | exact (rowStep_no_reconnect env i r).1 hmem
        | exact (rowStep_no_reconnect env i r).2 hmem
    · simp at h1

/-- The worker with one row per page whose session is lost mid-run: the
view click drops (`rowNavOk` false), `recover_list` always times out and
raises (`recover1` false), and the stride advance fails (`nextOk`
false). -/
def sessionLostEnv : RunEnv :=
  ⟨fun _ => true, fun _ => 1, fun _ _ => true, fun _ _ => false,
   fun _ _ => false, fun _ _ => false, fun _ => false⟩

/-- Counterexample to C3: under total failure to re-acquire the list
container (`recover_list` raising on every call), the run does not
escalate to the unbounded reconnect-and-relocalize protocol — the root
list URL is loaded exactly once, at startup, and the run simply ends when
the stride advance fails.  Session loss therefore can end the run,
contrary to the claim. -/
theorem recover_no_escalation_cex :
    ((mainRun ⟨0, 1, 1, 0⟩ sessionLostEnv 3 3).1.count RunAction.gotoRoot = 1)
    ∧ (mainRun ⟨0, 1, 1, 0⟩ sessionLostEnv 3 3).2 = RunOutcome.finished := by
  refine ⟨by decide, by decide⟩

/-- C3 (amended): when `recover_list` exhausts its bounded timeout it
raises; the row-level handler retries `recover_list` once and otherwise
skips to the next row.  The page loop never reloads the root list URL and
never re-runs the localization normalization — the reconnect-and-
relocalize protocol runs only in startup, so persistent session loss is
not escalated and the run can end. -/
theorem runLoop_no_reconnect (env : RunEnv) (maxPages : Nat) :
    ∀ fuel i : Nat,
      ¬ RunAction.gotoRoot ∈ (runLoop env maxPages fuel i).1
      ∧ ¬ RunAction.switchEnglish ∈ (runLoop env maxPages fuel i).1 := by
  intro fuel
  induction fuel with
  | zero => intro i; simp [runLoop]
  | succ n ih =>
    intro i
    rw [runLoop]
    split
    · exact pageStep_no_reconnect env i
    · split
      · constructor
        · intro h
          rcases List.mem_append.mp h with h1 | h1
          · rcases List.mem_append.mp h1 with h2 | h2
            · exact (pageStep_no_reconnect env i).1 h2
            · simp at h2
          · exact (ih (i + 1)).1 h1
        · intro h
          rcases List.mem_append.mp h with h1 | h1
          · rcases List.mem_append.mp h1 with h2 | h2
            · exact (pageStep_no_reconnect env i).2 h2
            · simp at h2
          · exact (ih (i + 1)).2 h1
      · exact pageStep_no_reconnect env i

end Mustamir
